import Mathlib

/-
Verification of the Q-Link end-to-end encryption helper
(src/src/lib/encryption.js).

The module under verification is a thin wrapper around the TweetNaCl
library (X25519 key exchange, XSalsa20-Poly1305 authenticated encryption,
Ed25519 detached signatures) and the tweetnacl-util codecs (UTF-8 and
base64).  The wrapper's own logic -- base64/UTF-8 conversions, the
try/catch structure that converts library failures into the null/false
sentinels, the first-32-bytes seed truncation in sign, and the per-call
nonce draw -- is embedded here line by line.

The TweetNaCl primitives themselves are third-party library code, not
part of this repository; the embedding is therefore parameterized over an
abstract interface (NaclLib) whose assumed behaviour (NaclContract) is
the documented contract of TweetNaCl: box is secretbox composed with the
beforenm shared key, beforenm is symmetric in the two key pairs,
opening inverts sealing, opening authenticates (only genuinely sealed
ciphertexts open, and any single-bit corruption is rejected), and
detached signatures verify exactly under the public key of the signing
key pair that produced them.  A small concrete instance (toyNacl) that
provably satisfies the whole contract is used to witness every theorem,
so no theorem below has unsatisfiable hypotheses.

Throwing JS functions are modelled with Except (an uncaught exception is
Except.error), failure results with Option (null is none).
-/

namespace QLink

/-- Bytes of a Uint8Array entry. -/
abbrev Byte := Fin 256

/-- Model of a JS Uint8Array: a list of bytes. -/
abbrev Bytes := List Byte

/-- Interface of the imported libraries, mirroring
`import nacl from 'tweetnacl'` and the tweetnacl-util codecs.
Functions that can throw or return null are Option-valued (none models
both a thrown error and a null result, which the wrapper treats alike).
Key-pair generation takes its random draw as an explicit argument. -/
structure NaclLib where
  /-- tweetnacl-util decodeUTF8: JS string to UTF-8 bytes (total on
  well-formed strings, and every Lean String is well-formed). -/
  decodeUTF8 : String → Bytes
  /-- tweetnacl-util encodeUTF8: bytes to JS string; throws on invalid
  UTF-8, modelled as none. -/
  encodeUTF8 : Bytes → Option String
  /-- tweetnacl-util encodeBase64 (total). -/
  encodeBase64 : Bytes → String
  /-- tweetnacl-util decodeBase64; throws on malformed base64, modelled
  as none. -/
  decodeBase64 : String → Option Bytes
  /-- nacl.box.keyPair, with the internal random draw made explicit:
  entropy in, (publicKey, secretKey) out. -/
  boxKeyPair : Bytes → Bytes × Bytes
  /-- nacl.box(message, nonce, theirPublicKey, mySecretKey). -/
  box : Bytes → Bytes → Bytes → Bytes → Option Bytes
  /-- nacl.box.open(ciphertext, nonce, theirPublicKey, mySecretKey);
  none models both a thrown size error and the null of a failed
  authentication. -/
  boxOpen : Bytes → Bytes → Bytes → Bytes → Option Bytes
  /-- nacl.box.before(theirPublicKey, mySecretKey): the precomputed
  shared key; none models a thrown size error. -/
  boxBefore : Bytes → Bytes → Option Bytes
  /-- nacl.box.after(message, nonce, sharedKey) = nacl.secretbox. -/
  boxAfter : Bytes → Bytes → Bytes → Option Bytes
  /-- nacl.box.open.after(ciphertext, nonce, sharedKey). -/
  boxOpenAfter : Bytes → Bytes → Bytes → Option Bytes
  /-- nacl.sign.keyPair.fromSeed(seed): (publicKey, secretKey); none
  models the thrown bad-seed-size error. -/
  signKeyPairFromSeed : Bytes → Option (Bytes × Bytes)
  /-- nacl.sign.detached(message, signingSecretKey). -/
  signDetached : Bytes → Bytes → Option Bytes
  /-- nacl.sign.detached.verify(message, sig, signingPublicKey);
  none models a thrown size error, some b a returned boolean. -/
  signDetachedVerify : Bytes → Bytes → Bytes → Option Bool

/-- Return value of generateKeyPair: Base64 encoded key pair
(encryption.js lines 17-24). -/
structure KeyPair where
  publicKey : String
  secretKey : String
deriving DecidableEq, Repr

/-- Return value of encrypt / encryptWithSharedSecret: encrypted message
and nonce, both Base64 (encryption.js lines 59-62). -/
structure Envelope where
  encrypted : String
  nonce : String
deriving DecidableEq, Repr

/-- nacl.box.nonceLength. -/
def nonceLength : Nat := 24

/-- generateKeyPair (encryption.js lines 17-24): wraps nacl.box.keyPair
and Base64-encodes both keys.  The platform random draw consumed by
nacl.box.keyPair is the explicit entropy argument. -/
def generateKeyPair (lib : NaclLib) (entropy : Bytes) : KeyPair :=
  let keyPair := lib.boxKeyPair entropy
  { publicKey := lib.encodeBase64 keyPair.1
    secretKey := lib.encodeBase64 keyPair.2 }

/-- generateNonce (encryption.js lines 30-32):
nacl.randomBytes(nacl.box.nonceLength), with the platform random source
made explicit as a byte stream r. -/
def generateNonce (r : Nat → Nat) : Bytes :=
  (List.range nonceLength).map fun i => ⟨r i % 256, Nat.mod_lt _ (by omega)⟩

/-- encrypt (encryption.js lines 41-67).  Decodes the message and both
keys, draws a fresh nonce, calls nacl.box, and Base64-encodes the
result.  A decode throw, a box throw, or a falsy box result all fall to
the catch / null branch, modelled by none. -/
def encrypt (lib : NaclLib) (r : Nat → Nat)
    (message recipientPublicKey senderSecretKey : String) : Option Envelope :=
  let messageUint8 := lib.decodeUTF8 message
  let nonce := generateNonce r
  match lib.decodeBase64 recipientPublicKey with
  | none => none
  | some recipientPubKeyUint8 =>
    match lib.decodeBase64 senderSecretKey with
    | none => none
    | some senderSecKeyUint8 =>
      match lib.box messageUint8 nonce recipientPubKeyUint8 senderSecKeyUint8 with
      | none => none
      | some encrypted =>
        some { encrypted := lib.encodeBase64 encrypted
               nonce := lib.encodeBase64 nonce }

/-- decrypt (encryption.js lines 77-100).  Decodes all four inputs,
calls nacl.box.open, and UTF-8-encodes the plaintext.  Any decode
throw, open throw, null open result, or encodeUTF8 throw is caught and
returned as null (none). -/
def decrypt (lib : NaclLib)
    (encryptedMessage nonceText senderPublicKey recipientSecretKey : String) :
    Option String :=
  match lib.decodeBase64 encryptedMessage with
  | none => none
  | some encryptedUint8 =>
    match lib.decodeBase64 nonceText with
    | none => none
    | some nonceUint8 =>
      match lib.decodeBase64 senderPublicKey with
      | none => none
      | some senderPubKeyUint8 =>
        match lib.decodeBase64 recipientSecretKey with
        | none => none
        | some recipientSecKeyUint8 =>
          match lib.boxOpen encryptedUint8 nonceUint8 senderPubKeyUint8
              recipientSecKeyUint8 with
          | none => none
          | some decrypted => lib.encodeUTF8 decrypted

/-- deriveSharedSecret (encryption.js lines 108-114).  NOTE: the source
has no try/catch here, so a decodeBase64 or nacl.box.before throw
propagates to the caller; that is modelled by Except.error. -/
def deriveSharedSecret (lib : NaclLib) (theirPublicKey mySecretKey : String) :
    Except Unit String :=
  match lib.decodeBase64 theirPublicKey with
  | none => Except.error ()
  | some theirPubKeyUint8 =>
    match lib.decodeBase64 mySecretKey with
    | none => Except.error ()
    | some mySecKeyUint8 =>
      match lib.boxBefore theirPubKeyUint8 mySecKeyUint8 with
      | none => Except.error ()
      | some sharedSecret => Except.ok (lib.encodeBase64 sharedSecret)

/-- encryptWithSharedSecret (encryption.js lines 122-142). -/
def encryptWithSharedSecret (lib : NaclLib) (r : Nat → Nat)
    (message sharedSecret : String) : Option Envelope :=
  let messageUint8 := lib.decodeUTF8 message
  let nonce := generateNonce r
  match lib.decodeBase64 sharedSecret with
  | none => none
  | some sharedSecretUint8 =>
    match lib.boxAfter messageUint8 nonce sharedSecretUint8 with
    | none => none
    | some encrypted =>
      some { encrypted := lib.encodeBase64 encrypted
             nonce := lib.encodeBase64 nonce }

/-- decryptWithSharedSecret (encryption.js lines 151-168). -/
def decryptWithSharedSecret (lib : NaclLib)
    (encryptedMessage nonceText sharedSecret : String) : Option String :=
  match lib.decodeBase64 encryptedMessage with
  | none => none
  | some encryptedUint8 =>
    match lib.decodeBase64 nonceText with
    | none => none
    | some nonceUint8 =>
      match lib.decodeBase64 sharedSecret with
      | none => none
      | some sharedSecretUint8 =>
        match lib.boxOpenAfter encryptedUint8 nonceUint8 sharedSecretUint8 with
        | none => none
        | some decrypted => lib.encodeUTF8 decrypted

/-- sign (encryption.js lines 176-183).  Derives a signing key pair from
the first 32 bytes of the decoded secret key (slice(0, 32) is
List.take 32) and produces a detached signature.  NOTE: the source has
no try/catch here, so decode or primitive throws propagate
(Except.error). -/
def sign (lib : NaclLib) (message secretKey : String) : Except Unit String :=
  match lib.decodeBase64 secretKey with
  | none => Except.error ()
  | some decoded =>
    match lib.signKeyPairFromSeed (decoded.take 32) with
    | none => Except.error ()
    | some signingKeyPair =>
      let messageUint8 := lib.decodeUTF8 message
      match lib.signDetached messageUint8 signingKeyPair.2 with
      | none => Except.error ()
      | some sig => Except.ok (lib.encodeBase64 sig)

/-- verify (encryption.js lines 192-203).  Decodes the signature and the
public key, calls nacl.sign.detached.verify; any throw is caught and
returned as false. -/
def verify (lib : NaclLib) (message signatureText publicKey : String) : Bool :=
  let messageUint8 := lib.decodeUTF8 message
  match lib.decodeBase64 signatureText with
  | none => false
  | some signatureUint8 =>
    match lib.decodeBase64 publicKey with
    | none => false
    | some publicKeyUint8 =>
      match lib.signDetachedVerify messageUint8 signatureUint8 publicKeyUint8 with
      | none => false
      | some b => b

/-- Byte-wise exclusive or. -/
def xorByte (a b : Byte) : Byte :=
  ⟨a.val ^^^ b.val, by
    have h : a.val ^^^ b.val < 2 ^ 8 :=
      Nat.xor_lt_two_pow (n := 8) a.isLt b.isLt
    omega⟩

/-- Byte sequence c with bit j of byte i flipped. -/
def flipBit (c : Bytes) (i j : Nat) : Bytes :=
  c.set i (xorByte (c.getD i ⟨0, by omega⟩) ⟨2 ^ j % 256, Nat.mod_lt _ (by omega)⟩)

/-- The relation between a byte sequence and the same sequence with
exactly one bit flipped. -/
def FlipOneBit (c c' : Bytes) : Prop :=
  ∃ i j, i < c.length ∧ j < 8 ∧ c' = flipBit c i j

/-- The assumed behaviour of the TweetNaCl / tweetnacl-util functions
the wrapper calls, i.e. their documented contract.  Every field is a
fact about the real library: the codec round trips, the definition of
box through the precomputed shared key (this is literally how tweetnacl
implements nacl.box), the key-exchange symmetry of box.before, that
sealing and opening with the same shared key and nonce are inverse, the
authenticated-encryption guarantee (only genuinely-sealed ciphertexts
open, and any single-bit corruption of a ciphertext is rejected), and
the detached-signature guarantee (a signature verifies exactly under
the public key of the signing key pair that produced it, for exactly
the signed message). -/
structure NaclContract (lib : NaclLib) : Prop where
  b64_rt : ∀ b : Bytes, lib.decodeBase64 (lib.encodeBase64 b) = some b
  utf8_rt : ∀ s : String, lib.encodeUTF8 (lib.decodeUTF8 s) = some s
  box_def : ∀ m n pk sk,
    lib.box m n pk sk = (lib.boxBefore pk sk).bind (lib.boxAfter m n)
  boxOpen_def : ∀ c n pk sk,
    lib.boxOpen c n pk sk = (lib.boxBefore pk sk).bind fun k => lib.boxOpenAfter c n k
  before_symm : ∀ e1 e2,
    lib.boxBefore (lib.boxKeyPair e2).1 (lib.boxKeyPair e1).2
      = lib.boxBefore (lib.boxKeyPair e1).1 (lib.boxKeyPair e2).2
  before_ok : ∀ e1 e2,
    (lib.boxBefore (lib.boxKeyPair e2).1 (lib.boxKeyPair e1).2).isSome
  after_ok : ∀ m n k e1 e2,
    lib.boxBefore (lib.boxKeyPair e2).1 (lib.boxKeyPair e1).2 = some k →
    (lib.boxAfter m n k).isSome
  after_open : ∀ m n k c, lib.boxAfter m n k = some c →
    lib.boxOpenAfter c n k = some m
  open_genuine : ∀ c n k m, lib.boxOpenAfter c n k = some m →
    lib.boxAfter m n k = some c
  bitflip_reject : ∀ m n k c c', lib.boxAfter m n k = some c →
    FlipOneBit c c' → lib.boxOpenAfter c' n k = none
  sign_correct : ∀ seed pk sk m sig,
    lib.signKeyPairFromSeed seed = some (pk, sk) →
    lib.signDetached m sk = some sig →
    lib.signDetachedVerify m sig pk = some true
  sign_wrong_key : ∀ seed pk sk m sig pk',
    lib.signKeyPairFromSeed seed = some (pk, sk) →
    lib.signDetached m sk = some sig → pk' ≠ pk →
    lib.signDetachedVerify m sig pk' = some false
  sign_wrong_msg : ∀ seed pk sk m sig m',
    lib.signKeyPairFromSeed seed = some (pk, sk) →
    lib.signDetached m sk = some sig → m' ≠ m →
    lib.signDetachedVerify m' sig pk = some false
  verify_genuine : ∀ m sig pk,
    lib.signDetachedVerify m sig pk = some true →
    ∃ seed sk, lib.signKeyPairFromSeed seed = some (pk, sk) ∧
      lib.signDetached m sk = some sig

/-
A concrete instance of NaclLib that provably satisfies the whole
contract, used to witness the theorems below.  It replaces the real
primitives with small arithmetic stand-ins that have the same algebraic
shape: a multiplicative key exchange modulo 251, a sealing scheme that
is an injective self-describing encoding of (key, nonce, message)
guarded by a parity byte (so every single-bit corruption is detected),
and signatures that are an injective encoding of (signing key, message).
-/

/-- Little-endian base-256 digits of n (fuel-structured so that it
reduces by rfl). -/
def natToBytesAux : Nat → Nat → Bytes
  | _, 0 => []
  | 0, _ + 1 => []
  | fuel + 1, n + 1 =>
    ⟨(n + 1) % 256, Nat.mod_lt _ (by omega)⟩ :: natToBytesAux fuel ((n + 1) / 256)

/-- Little-endian base-256 representation of n. -/
def natToBytes (n : Nat) : Bytes := natToBytesAux n n

/-- Value of a little-endian base-256 byte sequence. -/
def natFromBytes : Bytes → Nat
  | [] => 0
  | b :: t => b.val + 256 * natFromBytes t

/-- Toy text codec for one byte: two characters from the range A..P. -/
def encB64Byte (b : Byte) : List Char :=
  [Char.ofNat (65 + b.val / 16), Char.ofNat (65 + b.val % 16)]

/-- Toy text codec: one character back to a half-byte. -/
def decB64Char (c : Char) : Option (Fin 16) :=
  if h : 65 ≤ c.toNat ∧ c.toNat ≤ 80 then some ⟨c.toNat - 65, by omega⟩ else none

/-- Toy text codec: two characters back to one byte. -/
def decB64Pair (c1 c2 : Char) : Option Byte :=
  match decB64Char c1, decB64Char c2 with
  | some h, some l => some ⟨h.val * 16 + l.val, by
      have hh := h.isLt
      have hl := l.isLt
      omega⟩
  | _, _ => none

/-- Toy base64 decoding of a character list. -/
def decB64Aux : List Char → Option Bytes
  | [] => some []
  | c1 :: c2 :: rest =>
    match decB64Pair c1 c2, decB64Aux rest with
    | some b, some bs => some (b :: bs)
    | _, _ => none
  | _ => none

/-- Bytes of one character in the toy UTF-8 stand-in: three base-256
digits of the code point, big-endian. -/
def charToBytes (c : Char) : Bytes :=
  [⟨c.toNat / 65536 % 256, Nat.mod_lt _ (by omega)⟩,
   ⟨c.toNat / 256 % 256, Nat.mod_lt _ (by omega)⟩,
   ⟨c.toNat % 256, Nat.mod_lt _ (by omega)⟩]

/-- Reassemble one character from three bytes, validating the code
point. -/
def bytesToChar (b2 b1 b0 : Byte) : Option Char :=
  let n := b2.val * 65536 + b1.val * 256 + b0.val
  if Nat.isValidChar n then some (Char.ofNat n) else none

/-- Toy string-to-bytes codec (stand-in for decodeUTF8). -/
def decUTF8 (s : String) : Bytes := (s.data.map charToBytes).flatten

/-- Toy bytes-to-characters codec, three bytes per character. -/
def encUTF8Aux : Bytes → Option (List Char)
  | [] => some []
  | b2 :: b1 :: b0 :: rest =>
    match bytesToChar b2 b1 b0, encUTF8Aux rest with
    | some c, some cs => some (c :: cs)
    | _, _ => none
  | _ => none

/-- Toy bytes-to-string codec (stand-in for encodeUTF8); fails on byte
sequences that do not decode, like the real codec. -/
def encUTF8 (b : Bytes) : Option String := (encUTF8Aux b).map String.mk

/-- Unary length header: k ones followed by a zero. -/
def unaryLen : Nat → Bytes
  | 0 => [⟨0, by omega⟩]
  | n + 1 => ⟨1, by omega⟩ :: unaryLen n

/-- Injective, decodable encoding of a pair of byte sequences. -/
def pairEnc (a b : Bytes) : Bytes := unaryLen a.length ++ a ++ b

/-- Read back a unary length header. -/
def readUnary : Bytes → Option (Nat × Bytes)
  | [] => none
  | b :: rest =>
    if b.val = 0 then some (0, rest)
    else if b.val = 1 then (readUnary rest).map fun p => (p.1 + 1, p.2)
    else none

/-- Exact decoder of pairEnc. -/
def pairDec (c : Bytes) : Option (Bytes × Bytes) :=
  match readUnary c with
  | none => none
  | some (k, r) => if k ≤ r.length then some (r.take k, r.drop k) else none

/-- Bit parity of one byte. -/
def oddPop (b : Byte) : Bool :=
  (b.val / 128 % 2 + b.val / 64 % 2 + b.val / 32 % 2 + b.val / 16 % 2 +
   b.val / 8 % 2 + b.val / 4 % 2 + b.val / 2 % 2 + b.val % 2) % 2 == 1

/-- Bit parity of a byte sequence. -/
def bparity : Bytes → Bool
  | [] => false
  | b :: rest => xor (oddPop b) (bparity rest)

/-- Parity guard byte appended to every toy ciphertext. -/
def parityByte (payload : Bytes) : Byte :=
  if bparity payload then ⟨1, by omega⟩ else ⟨0, by omega⟩

/-- Split off the final byte of a nonempty sequence. -/
def splitLast : Bytes → Option (Bytes × Byte)
  | [] => none
  | [b] => some ([], b)
  | b :: c :: rest => (splitLast (c :: rest)).map fun p => (b :: p.1, p.2)

/-- Toy sealing: self-describing encoding of (key, nonce, message)
followed by a parity guard byte. -/
def toySeal (k n m : Bytes) : Bytes :=
  pairEnc k (pairEnc n m) ++ [parityByte (pairEnc k (pairEnc n m))]

/-- Toy nacl.box.after. -/
def toyAfter (m n k : Bytes) : Option Bytes := some (toySeal k n m)

/-- Toy nacl.box.open.after: decode, then check key, nonce and parity
guard; reject everything else. -/
def toyOpenAfter (c n k : Bytes) : Option Bytes :=
  match splitLast c with
  | none => none
  | some (payload, b) =>
    match pairDec payload with
    | none => none
    | some (k', rest) =>
      match pairDec rest with
      | none => none
      | some (n', m) =>
        if k' = k ∧ n' = n ∧ b = parityByte payload then some m else none

/-- Toy nacl.box.before: multiplicative key exchange modulo 251. -/
def toyBefore (pk sk : Bytes) : Option Bytes :=
  some (natToBytes (natFromBytes pk * natFromBytes sk % 251))

/-- Toy nacl.box.keyPair: public key is 7 times the secret modulo 251. -/
def toyKeyPair (e : Bytes) : Bytes × Bytes :=
  (natToBytes (7 * natFromBytes e % 251), e)

/-- Toy nacl.box, defined through the precomputed key exactly as
tweetnacl defines it. -/
def toyBox (m n pk sk : Bytes) : Option Bytes :=
  (toyBefore pk sk).bind (toyAfter m n)

/-- Toy nacl.box.open, defined through the precomputed key. -/
def toyBoxOpen (c n pk sk : Bytes) : Option Bytes :=
  (toyBefore pk sk).bind fun k => toyOpenAfter c n k

/-- Toy nacl.sign.keyPair.fromSeed: signing secret is the seed itself,
signing public key is the seed behind a marker byte (so it differs from
every toy box public key used in the developments below). -/
def toyFromSeed (seed : Bytes) : Option (Bytes × Bytes) :=
  some (⟨9, by omega⟩ :: seed, seed)

/-- Toy nacl.sign.detached: injective encoding of (signing key,
message). -/
def toySignDetached (m sk : Bytes) : Option Bytes := some (pairEnc sk m)

/-- Toy nacl.sign.detached.verify. -/
def toySignVerify (m sig pk : Bytes) : Option Bool :=
  some (match pairDec sig with
        | some p => decide (pk = ⟨9, by omega⟩ :: p.1 ∧ p.2 = m)
        | none => false)

/-- The toy library instance. -/
def toyNacl : NaclLib where
  decodeUTF8 := decUTF8
  encodeUTF8 := encUTF8
  encodeBase64 := fun b => String.mk ((b.map encB64Byte).flatten)
  decodeBase64 := fun s => decB64Aux s.data
  boxKeyPair := toyKeyPair
  box := toyBox
  boxOpen := toyBoxOpen
  boxBefore := toyBefore
  boxAfter := toyAfter
  boxOpenAfter := toyOpenAfter
  signKeyPairFromSeed := toyFromSeed
  signDetached := toySignDetached
  signDetachedVerify := toySignVerify

/-- Digits-value round trip for the fuel-structured base-256 codec. -/
lemma natFromBytes_natToBytesAux :
    ∀ fuel n, n ≤ fuel → natFromBytes (natToBytesAux fuel n) = n := by
  intro fuel
  induction fuel with
  | zero =>
    intro n h
    have hn : n = 0 := by omega
    subst hn
    rfl
  | succ f ih =>
    intro n h
    match n with
    | 0 => rfl
    | m + 1 =>
      have hle : (m + 1) / 256 ≤ f := by omega
      simp only [natToBytesAux, natFromBytes, ih _ hle]
      omega

/-- Value of the base-256 representation. -/
lemma natFromBytes_natToBytes (n : Nat) : natFromBytes (natToBytes n) = n :=
  natFromBytes_natToBytesAux n n le_rfl

set_option maxRecDepth 4096 in
/-- One byte of the toy text codec round trips. -/
lemma decB64Pair_enc : ∀ b : Byte,
    decB64Pair (Char.ofNat (65 + b.val / 16)) (Char.ofNat (65 + b.val % 16))
      = some b := by decide

/-- Unfolding equation of decB64Aux on two leading characters. -/
lemma decB64Aux_cons (c1 c2 : Char) (rest : List Char) :
    decB64Aux (c1 :: c2 :: rest)
      = match decB64Pair c1 c2, decB64Aux rest with
        | some b, some bs => some (b :: bs)
        | _, _ => none := rfl

/-- The toy text codec round trips on character lists. -/
lemma decB64Aux_enc : ∀ bs : Bytes,
    decB64Aux ((bs.map encB64Byte).flatten) = some bs := by
  intro bs
  induction bs with
  | nil => rfl
  | cons b t ih =>
    have h2 : ((b :: t).map encB64Byte).flatten
        = Char.ofNat (65 + b.val / 16) :: Char.ofNat (65 + b.val % 16)
          :: (t.map encB64Byte).flatten := by
      simp [encB64Byte]
    rw [h2, decB64Aux_cons, decB64Pair_enc b, ih]

/-- Code points are below 1114112. -/
lemma char_toNat_lt (c : Char) : c.toNat < 1114112 := by
  rcases c.valid with h | ⟨h1, h2⟩
  · exact Nat.lt_trans h (by omega)
  · exact h2

/-- Validity of a character's code point, as a Nat. -/
lemma char_isValid (c : Char) : Nat.isValidChar c.toNat := c.valid

/-- Unfolding equation of encUTF8Aux on three leading bytes. -/
lemma encUTF8Aux_cons (b2 b1 b0 : Byte) (rest : Bytes) :
    encUTF8Aux (b2 :: b1 :: b0 :: rest)
      = match bytesToChar b2 b1 b0, encUTF8Aux rest with
        | some c, some cs => some (c :: cs)
        | _, _ => none := rfl

/-- One character of the toy UTF-8 stand-in round trips. -/
lemma encUTF8Aux_char (c : Char) (rest : Bytes) :
    encUTF8Aux (charToBytes c ++ rest) = (encUTF8Aux rest).map fun l => c :: l := by
  have hlt : c.toNat < 1114112 := char_toNat_lt c
  have hb : bytesToChar ⟨c.toNat / 65536 % 256, Nat.mod_lt _ (by omega)⟩
      ⟨c.toNat / 256 % 256, Nat.mod_lt _ (by omega)⟩
      ⟨c.toNat % 256, Nat.mod_lt _ (by omega)⟩ = some c := by
    simp only [bytesToChar]
    rw [show c.toNat / 65536 % 256 * 65536 + c.toNat / 256 % 256 * 256 + c.toNat % 256
        = c.toNat from by omega]
    rw [if_pos (char_isValid c), Char.ofNat_toNat]
  have h3 : charToBytes c ++ rest
      = (⟨c.toNat / 65536 % 256, Nat.mod_lt _ (by omega)⟩ : Byte)
        :: (⟨c.toNat / 256 % 256, Nat.mod_lt _ (by omega)⟩ : Byte)
        :: (⟨c.toNat % 256, Nat.mod_lt _ (by omega)⟩ : Byte) :: rest := by
    simp [charToBytes]
  rw [h3, encUTF8Aux_cons, hb]
  cases encUTF8Aux rest <;> rfl

/-- The toy UTF-8 stand-in round trips on byte lists. -/
lemma encUTF8Aux_enc : ∀ l : List Char,
    encUTF8Aux ((l.map charToBytes).flatten) = some l := by
  intro l
  induction l with
  | nil => rfl
  | cons c t ih =>
    simp only [List.map_cons, List.flatten_cons, encUTF8Aux_char, ih]
    rfl

/-- Strings are their character lists. -/
lemma string_mk_data (s : String) : String.mk s.data = s := by
  cases s
  rfl

/-- Unfolding equation of readUnary on a leading byte. -/
lemma readUnary_cons (b : Byte) (rest : Bytes) :
    readUnary (b :: rest)
      = if b.val = 0 then some (0, rest)
        else if b.val = 1 then (readUnary rest).map fun p => (p.1 + 1, p.2)
        else none := rfl

/-- Unary headers read back exactly. -/
lemma readUnary_unaryLen : ∀ (n : Nat) (rest : Bytes),
    readUnary (unaryLen n ++ rest) = some (n, rest) := by
  intro n
  induction n with
  | zero => intro rest; rfl
  | succ m ih =>
    intro rest
    rw [show unaryLen (m + 1) = (⟨1, by omega⟩ : Byte) :: unaryLen m from rfl]
    rw [List.cons_append, readUnary_cons]
    rw [if_neg (by decide), if_pos (by decide), ih]
    rfl

/-- The pair codec round trips. -/
lemma pairDec_pairEnc (a b : Bytes) : pairDec (pairEnc a b) = some (a, b) := by
  unfold pairDec pairEnc
  rw [List.append_assoc, readUnary_unaryLen]
  show (if a.length ≤ (a ++ b).length
      then some ((a ++ b).take a.length, (a ++ b).drop a.length) else none)
    = some (a, b)
  rw [if_pos (by simp), List.take_left, List.drop_left]

/-- A successful unary read determines the input exactly. -/
lemma readUnary_shape : ∀ c k r, readUnary c = some (k, r) → c = unaryLen k ++ r := by
  intro c
  induction c with
  | nil => intro k r h; simp [readUnary] at h
  | cons b t ih =>
    intro k r h
    rw [readUnary_cons] at h
    by_cases h0 : b.val = 0
    · rw [if_pos h0] at h
      cases h
      have hb : b = (⟨0, by omega⟩ : Byte) := by
        apply Fin.ext
        simpa using h0
      rw [hb]
      rfl
    · by_cases h1 : b.val = 1
      · rw [if_neg h0, if_pos h1] at h
        cases hu : readUnary t with
        | none => rw [hu] at h; cases h
        | some p =>
          obtain ⟨k', r'⟩ := p
          rw [hu] at h
          have h' : some (k' + 1, r') = some (k, r) := h
          cases h'
          have hb : b = (⟨1, by omega⟩ : Byte) := by
            apply Fin.ext
            simpa using h1
          rw [hb, ih _ _ hu]
          rfl
      · rw [if_neg h0, if_neg h1] at h
        cases h

/-- A successful pair decode determines the input exactly. -/
lemma pairDec_shape : ∀ c a b, pairDec c = some (a, b) → c = pairEnc a b := by
  intro c a b h
  unfold pairDec at h
  cases hu : readUnary c with
  | none => rw [hu] at h; cases h
  | some p =>
    obtain ⟨k, r⟩ := p
    rw [hu] at h
    have h2 : (if k ≤ r.length then some (r.take k, r.drop k) else none)
        = some (a, b) := h
    by_cases hk : k ≤ r.length
    · rw [if_pos hk] at h2
      cases h2
      have hc := readUnary_shape c k r hu
      have hlen : (r.take k).length = k := by
        rw [List.length_take]
        omega
      rw [hc, pairEnc, hlen, List.append_assoc, List.take_append_drop]
    · rw [if_neg hk] at h2
      cases h2

/-- splitLast undoes appending one byte. -/
lemma splitLast_append : ∀ (l : Bytes) (b : Byte), splitLast (l ++ [b]) = some (l, b) := by
  intro l
  induction l with
  | nil => intro b; rfl
  | cons x t ih =>
    intro b
    cases t with
    | nil => rfl
    | cons y t' =>
      rw [List.cons_append, List.cons_append]
      rw [show splitLast (x :: y :: (t' ++ [b]))
          = (splitLast (y :: (t' ++ [b]))).map fun p => (x :: p.1, p.2) from rfl]
      rw [← List.cons_append, ih]
      rfl

/-- A successful splitLast determines the input exactly. -/
lemma splitLast_shape : ∀ c p b, splitLast c = some (p, b) → c = p ++ [b] := by
  intro c
  induction c with
  | nil => intro p b h; simp [splitLast] at h
  | cons x t ih =>
    intro p b h
    cases t with
    | nil =>
      have h' : some (([] : Bytes), x) = some (p, b) := h
      cases h'
      rfl
    | cons y t' =>
      have h' : (splitLast (y :: t')).map (fun q => (x :: q.1, q.2)) = some (p, b) := h
      cases hs : splitLast (y :: t') with
      | none => rw [hs] at h'; cases h'
      | some q =>
        obtain ⟨p', b'⟩ := q
        rw [hs] at h'
        have h'' : some (x :: p', b') = some (p, b) := h'
        cases h''
        have ht := ih _ _ hs
        rw [List.cons_append, ← ht]

set_option maxRecDepth 16384 in
/-- Flipping one bit of a byte flips its parity. -/
lemma oddPop_xor_pow : ∀ (b : Byte) (j : Fin 8),
    oddPop (xorByte b ⟨2 ^ j.val % 256, Nat.mod_lt _ (by omega)⟩) = !oddPop b := by
  decide

set_option maxRecDepth 16384 in
/-- Flipping one bit of a byte changes the byte. -/
lemma xorByte_pow_ne : ∀ (b : Byte) (j : Fin 8),
    xorByte b ⟨2 ^ j.val % 256, Nat.mod_lt _ (by omega)⟩ ≠ b := by
  decide

/-- Parity of a list after replacing one element. -/
lemma bparity_set : ∀ (l : Bytes) (i : Nat) (x d : Byte), i < l.length →
    bparity (l.set i x)
      = xor (xor (oddPop x) (oddPop (l.getD i d))) (bparity l) := by
  intro l
  induction l with
  | nil => intro i x d h; simp at h
  | cons b t ih =>
    intro i x d h
    cases i with
    | zero =>
      show xor (oddPop x) (bparity t)
        = xor (xor (oddPop x) (oddPop b)) (xor (oddPop b) (bparity t))
      cases oddPop x <;> cases oddPop b <;> cases bparity t <;> rfl
    | succ i' =>
      have hi' : i' < t.length := by
        simp at h
        omega
      show xor (oddPop b) (bparity (t.set i' x))
        = xor (xor (oddPop x) (oddPop (t.getD i' d))) (xor (oddPop b) (bparity t))
      rw [ih i' x d hi']
      cases oddPop b <;> cases oddPop x <;> cases oddPop (t.getD i' d) <;>
        cases bparity t <;> rfl

/-- Flipping one bit of a byte sequence flips its parity. -/
lemma bparity_flipBit (l : Bytes) (i j : Nat) (hi : i < l.length) (hj : j < 8) :
    bparity (flipBit l i j) = !bparity l := by
  unfold flipBit
  rw [bparity_set _ _ _ ⟨0, by omega⟩ hi]
  have hx := oddPop_xor_pow (l.getD i ⟨0, by omega⟩) ⟨j, hj⟩
  rw [show ((⟨j, hj⟩ : Fin 8) : Nat) = j from rfl] at hx
  rw [hx]
  cases oddPop (l.getD i ⟨0, by omega⟩) <;> cases bparity l <;> rfl

/-- getD looks into the left part of an append. -/
lemma getD_append_left : ∀ (l1 l2 : Bytes) (i : Nat) (d : Byte), i < l1.length →
    (l1 ++ l2).getD i d = l1.getD i d := by
  intro l1
  induction l1 with
  | nil => intro l2 i d h; simp at h
  | cons x t ih =>
    intro l2 i d h
    cases i with
    | zero => rfl
    | succ i' =>
      have : i' < t.length := by
        simp at h
        omega
      exact ih l2 i' d this

/-- set acts on the left part of an append. -/
lemma set_append_left : ∀ (l1 l2 : Bytes) (i : Nat) (x : Byte), i < l1.length →
    (l1 ++ l2).set i x = l1.set i x ++ l2 := by
  intro l1
  induction l1 with
  | nil => intro l2 i x h; simp at h
  | cons b t ih =>
    intro l2 i x h
    cases i with
    | zero => rfl
    | succ i' =>
      have : i' < t.length := by
        simp at h
        omega
      show b :: (t ++ l2).set i' x = b :: (t.set i' x ++ l2)
      rw [ih l2 i' x this]

/-- getD at the position of the appended last byte. -/
lemma getD_append_len : ∀ (l : Bytes) (g d : Byte), (l ++ [g]).getD l.length d = g := by
  intro l
  induction l with
  | nil => intro g d; rfl
  | cons b t ih => intro g d; exact ih g d

/-- set at the position of the appended last byte. -/
lemma set_append_len : ∀ (l : Bytes) (g x : Byte), (l ++ [g]).set l.length x = l ++ [x] := by
  intro l
  induction l with
  | nil => intro g x; rfl
  | cons b t ih =>
    intro g x
    show b :: (t ++ [g]).set t.length x = b :: (t ++ [x])
    rw [ih g x]

/-- Unfolding toyOpenAfter on a payload with its guard byte. -/
lemma toyOpenAfter_append (payload : Bytes) (g : Byte) (n k : Bytes) :
    toyOpenAfter (payload ++ [g]) n k
      = match pairDec payload with
        | none => none
        | some (k', rest) =>
          match pairDec rest with
          | none => none
          | some (n', m') =>
            if k' = k ∧ n' = n ∧ g = parityByte payload then some m' else none := by
  unfold toyOpenAfter
  rw [splitLast_append]

/-- toyOpenAfter fails when the payload does not decode. -/
lemma toyOpenAfter_payload_none (payload : Bytes) (g : Byte) (n k : Bytes)
    (hp : pairDec payload = none) : toyOpenAfter (payload ++ [g]) n k = none := by
  rw [toyOpenAfter_append, hp]

/-- toyOpenAfter fails when the payload remainder does not decode. -/
lemma toyOpenAfter_rest_none (payload : Bytes) (g : Byte) (n k k' rest : Bytes)
    (hp : pairDec payload = some (k', rest)) (hq : pairDec rest = none) :
    toyOpenAfter (payload ++ [g]) n k = none := by
  rw [toyOpenAfter_append, hp]
  show (match pairDec rest with
      | none => none
      | some (n', m') =>
        if k' = k ∧ n' = n ∧ g = parityByte payload then some m' else none) = none
  rw [hq]

/-- toyOpenAfter on a fully decoded payload is the three-way check. -/
lemma toyOpenAfter_full (payload : Bytes) (g : Byte) (n k k' rest n' m' : Bytes)
    (hp : pairDec payload = some (k', rest)) (hq : pairDec rest = some (n', m')) :
    toyOpenAfter (payload ++ [g]) n k
      = if k' = k ∧ n' = n ∧ g = parityByte payload then some m' else none := by
  rw [toyOpenAfter_append, hp]
  show (match pairDec rest with
      | none => none
      | some (n', m') =>
        if k' = k ∧ n' = n ∧ g = parityByte payload then some m' else none) = _
  rw [hq]

/-- Toy sealing and opening are inverse. -/
lemma toyOpenAfter_seal (m n k : Bytes) : toyOpenAfter (toySeal k n m) n k = some m := by
  unfold toySeal
  rw [toyOpenAfter_full _ _ _ _ k (pairEnc n m) n m (pairDec_pairEnc ..) (pairDec_pairEnc ..)]
  rw [if_pos ⟨rfl, rfl, rfl⟩]

/-- Toy opening accepts only genuinely sealed ciphertexts. -/
lemma toyOpen_genuine (c n k m : Bytes) :
    toyOpenAfter c n k = some m → toyAfter m n k = some c := by
  intro h
  cases hs : splitLast c with
  | none =>
    unfold toyOpenAfter at h
    rw [hs] at h
    cases h
  | some pg =>
    obtain ⟨payload, g⟩ := pg
    have hc := splitLast_shape _ _ _ hs
    subst hc
    cases hp : pairDec payload with
    | none =>
      rw [toyOpenAfter_payload_none _ _ _ _ hp] at h
      cases h
    | some kr =>
      obtain ⟨k', rest⟩ := kr
      cases hq : pairDec rest with
      | none =>
        rw [toyOpenAfter_rest_none _ _ _ _ _ _ hp hq] at h
        cases h
      | some nm =>
        obtain ⟨n', m'⟩ := nm
        rw [toyOpenAfter_full _ _ _ _ _ _ _ _ hp hq] at h
        by_cases hcond : k' = k ∧ n' = n ∧ g = parityByte payload
        · rw [if_pos hcond] at h
          cases h
          obtain ⟨hk', hn', hg⟩ := hcond
          have hpay := pairDec_shape _ _ _ hp
          have hrest := pairDec_shape _ _ _ hq
          subst hk'
          subst hn'
          rw [hrest] at hpay
          rw [hpay] at hg
          rw [hpay, hg]
          rfl
        · rw [if_neg hcond] at h
          cases h

/-- Toy opening rejects every single-bit corruption of a sealed
ciphertext. -/
lemma toy_bitflip (m n k c c' : Bytes) (hA : toyAfter m n k = some c)
    (hf : FlipOneBit c c') : toyOpenAfter c' n k = none := by
  have hc : c = toySeal k n m := (Option.some.inj hA).symm
  obtain ⟨i, j, hi, hj, hc'⟩ := hf
  subst hc
  subst hc'
  unfold toySeal at hi ⊢
  rw [List.length_append, List.length_singleton] at hi
  rcases Nat.lt_or_ge i (pairEnc k (pairEnc n m)).length with hlt | hge
  · have hflip : flipBit (pairEnc k (pairEnc n m) ++ [parityByte (pairEnc k (pairEnc n m))]) i j
        = flipBit (pairEnc k (pairEnc n m)) i j ++ [parityByte (pairEnc k (pairEnc n m))] := by
      unfold flipBit
      rw [getD_append_left _ _ _ _ hlt, set_append_left _ _ _ _ hlt]
    rw [hflip]
    have hpar : bparity (flipBit (pairEnc k (pairEnc n m)) i j)
        = !bparity (pairEnc k (pairEnc n m)) :=
      bparity_flipBit _ i j hlt hj
    have hgne : parityByte (pairEnc k (pairEnc n m))
        ≠ parityByte (flipBit (pairEnc k (pairEnc n m)) i j) := by
      unfold parityByte
      rw [hpar]
      cases bparity (pairEnc k (pairEnc n m)) <;> simp
    cases hp : pairDec (flipBit (pairEnc k (pairEnc n m)) i j) with
    | none => exact toyOpenAfter_payload_none _ _ _ _ hp
    | some kr =>
      obtain ⟨k', rest⟩ := kr
      cases hq : pairDec rest with
      | none => exact toyOpenAfter_rest_none _ _ _ _ _ _ hp hq
      | some nm =>
        obtain ⟨n', m'⟩ := nm
        rw [toyOpenAfter_full _ _ _ _ _ _ _ _ hp hq]
        rw [if_neg]
        intro hcond
        exact hgne hcond.2.2
  · have hieq : i = (pairEnc k (pairEnc n m)).length := by omega
    subst hieq
    have hflip : flipBit (pairEnc k (pairEnc n m) ++ [parityByte (pairEnc k (pairEnc n m))])
          (pairEnc k (pairEnc n m)).length j
        = pairEnc k (pairEnc n m)
          ++ [xorByte (parityByte (pairEnc k (pairEnc n m)))
              ⟨2 ^ j % 256, Nat.mod_lt _ (by omega)⟩] := by
      unfold flipBit
      rw [getD_append_len, set_append_len]
    rw [hflip]
    have hgne : xorByte (parityByte (pairEnc k (pairEnc n m)))
        ⟨2 ^ j % 256, Nat.mod_lt _ (by omega)⟩ ≠ parityByte (pairEnc k (pairEnc n m)) := by
      have hx := xorByte_pow_ne (parityByte (pairEnc k (pairEnc n m))) ⟨j, hj⟩
      rw [show ((⟨j, hj⟩ : Fin 8) : Nat) = j from rfl] at hx
      exact hx
    rw [toyOpenAfter_full _ _ _ _ k (pairEnc n m) n m (pairDec_pairEnc ..) (pairDec_pairEnc ..)]
    rw [if_neg]
    intro hcond
    exact hgne hcond.2.2

/-- Key-exchange symmetry of the toy before. -/
lemma toy_before_symm (e1 e2 : Bytes) :
    toyBefore (toyKeyPair e2).1 (toyKeyPair e1).2
      = toyBefore (toyKeyPair e1).1 (toyKeyPair e2).2 := by
  unfold toyBefore toyKeyPair
  simp only [natFromBytes_natToBytes]
  have key : ∀ x y : Nat, 7 * x % 251 * y % 251 = 7 * y % 251 * x % 251 := by
    intro x y
    rw [Nat.mod_mul_mod, Nat.mod_mul_mod, Nat.mul_right_comm]
  rw [key]

/-- The toy library satisfies the whole NaCl contract. -/
lemma toy_contract : NaclContract toyNacl := by
  constructor
  case b64_rt => exact fun b => decB64Aux_enc b
  case utf8_rt =>
    intro s
    show encUTF8 (decUTF8 s) = some s
    unfold encUTF8 decUTF8
    rw [encUTF8Aux_enc s.data]
    show some (String.mk s.data) = some s
    rw [string_mk_data]
  case box_def => intro m n pk sk; rfl
  case boxOpen_def => intro c n pk sk; rfl
  case before_symm => exact toy_before_symm
  case before_ok => intro e1 e2; rfl
  case after_ok => intro m n k e1 e2 h; rfl
  case after_open =>
    intro m n k c h
    rw [← Option.some.inj h]
    exact toyOpenAfter_seal m n k
  case open_genuine => exact toyOpen_genuine
  case bitflip_reject => exact toy_bitflip
  case sign_correct =>
    intro seed pk sk m sig h1 h2
    have hpk : pk = (⟨9, by omega⟩ : Byte) :: seed := by
      have := Option.some.inj h1
      exact (congrArg Prod.fst this).symm
    have hsk : sk = seed := by
      have := Option.some.inj h1
      exact (congrArg Prod.snd this).symm
    have hsig : sig = pairEnc sk m := (Option.some.inj h2).symm
    subst hsk
    subst hpk
    subst hsig
    show some _ = some true
    rw [pairDec_pairEnc]
    simp
  case sign_wrong_key =>
    intro seed pk sk m sig pk' h1 h2 hne
    have hpk : pk = (⟨9, by omega⟩ : Byte) :: seed := by
      have := Option.some.inj h1
      exact (congrArg Prod.fst this).symm
    have hsk : sk = seed := by
      have := Option.some.inj h1
      exact (congrArg Prod.snd this).symm
    have hsig : sig = pairEnc sk m := (Option.some.inj h2).symm
    rw [hsig, hsk]
    show some (match pairDec (pairEnc seed m) with
        | some p => decide (pk' = (⟨9, by omega⟩ : Byte) :: p.1 ∧ p.2 = m)
        | none => false) = some false
    rw [pairDec_pairEnc]
    exact congrArg some (decide_eq_false fun hcon => hne (by rw [hpk]; exact hcon.1))
  case sign_wrong_msg =>
    intro seed pk sk m sig m' h1 h2 hne
    have hpk : pk = (⟨9, by omega⟩ : Byte) :: seed := by
      have := Option.some.inj h1
      exact (congrArg Prod.fst this).symm
    have hsk : sk = seed := by
      have := Option.some.inj h1
      exact (congrArg Prod.snd this).symm
    have hsig : sig = pairEnc sk m := (Option.some.inj h2).symm
    rw [hsig, hsk]
    show some (match pairDec (pairEnc seed m) with
        | some p => decide (pk = (⟨9, by omega⟩ : Byte) :: p.1 ∧ p.2 = m')
        | none => false) = some false
    rw [pairDec_pairEnc]
    exact congrArg some (decide_eq_false fun hcon => hne hcon.2.symm)
  case verify_genuine =>
    intro m sig pk h
    have hb : (match pairDec sig with
        | some p => decide (pk = (⟨9, by omega⟩ : Byte) :: p.1 ∧ p.2 = m)
        | none => false) = true := Option.some.inj h
    cases hp : pairDec sig with
    | none =>
      rw [hp] at hb
      cases hb
    | some p =>
      obtain ⟨sk', m'⟩ := p
      rw [hp] at hb
      obtain ⟨hpk, hm⟩ := of_decide_eq_true hb
      refine ⟨sk', sk', ?_, ?_⟩
      · show some ((⟨9, by omega⟩ : Byte) :: sk', sk') = some (pk, sk')
        rw [hpk]
      · show some (pairEnc sk' m) = some sig
        have hshape := pairDec_shape _ _ _ hp
        have hm' : m' = m := hm
        rw [hshape, hm']

/-- The public key produced by generateKeyPair. -/
lemma generateKeyPair_publicKey (lib : NaclLib) (e : Bytes) :
    (generateKeyPair lib e).publicKey = lib.encodeBase64 (lib.boxKeyPair e).1 := rfl

/-- The secret key produced by generateKeyPair. -/
lemma generateKeyPair_secretKey (lib : NaclLib) (e : Bytes) :
    (generateKeyPair lib e).secretKey = lib.encodeBase64 (lib.boxKeyPair e).2 := rfl

/-- Base64 encoding is injective for a library whose codec round trips. -/
lemma encodeBase64_inj (lib : NaclLib) (hc : NaclContract lib) (b1 b2 : Bytes)
    (h : lib.encodeBase64 b1 = lib.encodeBase64 b2) : b1 = b2 := by
  have h1 := hc.b64_rt b1
  have h2 := hc.b64_rt b2
  rw [h] at h1
  rw [h1] at h2
  exact Option.some.inj h2

/-- Evaluation of encrypt when both keys decode and box succeeds. -/
lemma encrypt_eq (lib : NaclLib) (r : Nat → Nat) (M pkS skS : String)
    (pkb skb c : Bytes)
    (hpk : lib.decodeBase64 pkS = some pkb) (hsk : lib.decodeBase64 skS = some skb)
    (hbox : lib.box (lib.decodeUTF8 M) (generateNonce r) pkb skb = some c) :
    encrypt lib r M pkS skS
      = some { encrypted := lib.encodeBase64 c
               nonce := lib.encodeBase64 (generateNonce r) } := by
  unfold encrypt
  rw [hpk]
  show (match lib.decodeBase64 skS with
      | none => none
      | some skb =>
        match lib.box (lib.decodeUTF8 M) (generateNonce r) pkb skb with
        | none => none
        | some c =>
          some (Envelope.mk (lib.encodeBase64 c)
            (lib.encodeBase64 (generateNonce r)))) = _
  rw [hsk]
  show (match lib.box (lib.decodeUTF8 M) (generateNonce r) pkb skb with
      | none => none
      | some c =>
        some (Envelope.mk (lib.encodeBase64 c)
          (lib.encodeBase64 (generateNonce r)))) = _
  rw [hbox]

/-- Evaluation of decrypt when all four inputs decode. -/
lemma decrypt_eq (lib : NaclLib) (e n p s : String) (eb nb pb sb : Bytes)
    (he : lib.decodeBase64 e = some eb) (hn : lib.decodeBase64 n = some nb)
    (hp : lib.decodeBase64 p = some pb) (hs : lib.decodeBase64 s = some sb) :
    decrypt lib e n p s
      = match lib.boxOpen eb nb pb sb with
        | none => none
        | some mb => lib.encodeUTF8 mb := by
  unfold decrypt
  rw [he]
  show (match lib.decodeBase64 n with
      | none => none
      | some nb =>
        match lib.decodeBase64 p with
        | none => none
        | some pb =>
          match lib.decodeBase64 s with
          | none => none
          | some sb =>
            match lib.boxOpen eb nb pb sb with
            | none => none
            | some mb => lib.encodeUTF8 mb) = _
  rw [hn]
  show (match lib.decodeBase64 p with
      | none => none
      | some pb =>
        match lib.decodeBase64 s with
        | none => none
        | some sb =>
          match lib.boxOpen eb nb pb sb with
          | none => none
          | some mb => lib.encodeUTF8 mb) = _
  rw [hp]
  show (match lib.decodeBase64 s with
      | none => none
      | some sb =>
        match lib.boxOpen eb nb pb sb with
        | none => none
        | some mb => lib.encodeUTF8 mb) = _
  rw [hs]

/-- Evaluation of encryptWithSharedSecret when the key decodes and
sealing succeeds. -/
lemma encryptWithSharedSecret_eq (lib : NaclLib) (r : Nat → Nat) (M S : String)
    (kb c : Bytes) (hk : lib.decodeBase64 S = some kb)
    (hbox : lib.boxAfter (lib.decodeUTF8 M) (generateNonce r) kb = some c) :
    encryptWithSharedSecret lib r M S
      = some { encrypted := lib.encodeBase64 c
               nonce := lib.encodeBase64 (generateNonce r) } := by
  unfold encryptWithSharedSecret
  rw [hk]
  show (match lib.boxAfter (lib.decodeUTF8 M) (generateNonce r) kb with
      | none => none
      | some c =>
        some (Envelope.mk (lib.encodeBase64 c)
          (lib.encodeBase64 (generateNonce r)))) = _
  rw [hbox]

/-- Evaluation of decryptWithSharedSecret when all inputs decode. -/
lemma decryptWithSharedSecret_eq (lib : NaclLib) (e n S : String) (eb nb kb : Bytes)
    (he : lib.decodeBase64 e = some eb) (hn : lib.decodeBase64 n = some nb)
    (hk : lib.decodeBase64 S = some kb) :
    decryptWithSharedSecret lib e n S
      = match lib.boxOpenAfter eb nb kb with
        | none => none
        | some mb => lib.encodeUTF8 mb := by
  unfold decryptWithSharedSecret
  rw [he]
  show (match lib.decodeBase64 n with
      | none => none
      | some nb =>
        match lib.decodeBase64 S with
        | none => none
        | some kb =>
          match lib.boxOpenAfter eb nb kb with
          | none => none
          | some mb => lib.encodeUTF8 mb) = _
  rw [hn]
  show (match lib.decodeBase64 S with
      | none => none
      | some kb =>
        match lib.boxOpenAfter eb nb kb with
        | none => none
        | some mb => lib.encodeUTF8 mb) = _
  rw [hk]

/-- Evaluation of deriveSharedSecret when all inputs decode and the key
exchange succeeds. -/
lemma deriveSharedSecret_eq (lib : NaclLib) (t m : String) (tb mb kb : Bytes)
    (ht : lib.decodeBase64 t = some tb) (hm : lib.decodeBase64 m = some mb)
    (hk : lib.boxBefore tb mb = some kb) :
    deriveSharedSecret lib t m = Except.ok (lib.encodeBase64 kb) := by
  unfold deriveSharedSecret
  rw [ht]
  show (match lib.decodeBase64 m with
      | none => Except.error ()
      | some mb =>
        match lib.boxBefore tb mb with
        | none => Except.error ()
        | some k => Except.ok (lib.encodeBase64 k)) = _
  rw [hm]
  show (match lib.boxBefore tb mb with
      | none => Except.error ()
      | some k => Except.ok (lib.encodeBase64 k)) = _
  rw [hk]

/-- Evaluation of sign when the key decodes and the primitives succeed. -/
lemma sign_eq (lib : NaclLib) (M sk : String) (skb pkSig skSig sg : Bytes)
    (hsk : lib.decodeBase64 sk = some skb)
    (hkp : lib.signKeyPairFromSeed (skb.take 32) = some (pkSig, skSig))
    (hsg : lib.signDetached (lib.decodeUTF8 M) skSig = some sg) :
    sign lib M sk = Except.ok (lib.encodeBase64 sg) := by
  unfold sign
  rw [hsk]
  show (match lib.signKeyPairFromSeed (skb.take 32) with
      | none => Except.error ()
      | some signingKeyPair =>
        match lib.signDetached (lib.decodeUTF8 M) signingKeyPair.2 with
        | none => Except.error ()
        | some sig => Except.ok (lib.encodeBase64 sig)) = _
  rw [hkp]
  show (match lib.signDetached (lib.decodeUTF8 M) skSig with
      | none => Except.error ()
      | some sig => Except.ok (lib.encodeBase64 sig)) = _
  rw [hsg]

/-- Evaluation of verify when both inputs decode. -/
lemma verify_eq (lib : NaclLib) (M sg p : String) (sgb pb : Bytes)
    (hsg : lib.decodeBase64 sg = some sgb) (hp : lib.decodeBase64 p = some pb) :
    verify lib M sg p
      = match lib.signDetachedVerify (lib.decodeUTF8 M) sgb pb with
        | none => false
        | some b => b := by
  unfold verify
  rw [hsg]
  show (match lib.decodeBase64 p with
      | none => false
      | some pb =>
        match lib.signDetachedVerify (lib.decodeUTF8 M) sgb pb with
        | none => false
        | some b => b) = _
  rw [hp]

/-- verify returns false when the signature does not decode. -/
lemma verify_sig_none (lib : NaclLib) (M sg P : String)
    (h : lib.decodeBase64 sg = none) : verify lib M sg P = false := by
  unfold verify
  rw [h]

/-- verify returns false when the public key does not decode. -/
lemma verify_pk_none (lib : NaclLib) (M sg P : String) (sgb : Bytes)
    (hsg : lib.decodeBase64 sg = some sgb) (h : lib.decodeBase64 P = none) :
    verify lib M sg P = false := by
  unfold verify
  rw [hsg]
  show (match lib.decodeBase64 P with
      | none => false
      | some pb =>
        match lib.signDetachedVerify (lib.decodeUTF8 M) sgb pb with
        | none => false
        | some b => b) = _
  rw [h]

/-- sign after the secret key has decoded. -/
lemma sign_decoded (lib : NaclLib) (M sk : String) (b : Bytes)
    (h : lib.decodeBase64 sk = some b) :
    sign lib M sk
      = match lib.signKeyPairFromSeed (b.take 32) with
        | none => Except.error ()
        | some signingKeyPair =>
          match lib.signDetached (lib.decodeUTF8 M) signingKeyPair.2 with
          | none => Except.error ()
          | some sig => Except.ok (lib.encodeBase64 sig) := by
  unfold sign
  rw [h]

/-- The UTF-8 codec of a contract-satisfying library is injective on
strings. -/
lemma decodeUTF8_inj (lib : NaclLib) (hc : NaclContract lib) (s1 s2 : String)
    (h : lib.decodeUTF8 s1 = lib.decodeUTF8 s2) : s1 = s2 := by
  have h1 := hc.utf8_rt s1
  have h2 := hc.utf8_rt s2
  rw [h] at h1
  rw [h1] at h2
  exact Option.some.inj h2

/-- Inversion of a successful encrypt. -/
lemma encrypt_inv (lib : NaclLib) (r : Nat → Nat) (M pkS skS : String)
    (env : Envelope) (h : encrypt lib r M pkS skS = some env) :
    ∃ pkb skb c, lib.decodeBase64 pkS = some pkb ∧ lib.decodeBase64 skS = some skb ∧
      lib.box (lib.decodeUTF8 M) (generateNonce r) pkb skb = some c ∧
      env = Envelope.mk (lib.encodeBase64 c) (lib.encodeBase64 (generateNonce r)) := by
  unfold encrypt at h
  cases hpk : lib.decodeBase64 pkS with
  | none => rw [hpk] at h; cases h
  | some pkb =>
    rw [hpk] at h
    have h1 : (match lib.decodeBase64 skS with
        | none => none
        | some skb =>
          match lib.box (lib.decodeUTF8 M) (generateNonce r) pkb skb with
          | none => none
          | some c =>
            some (Envelope.mk (lib.encodeBase64 c)
              (lib.encodeBase64 (generateNonce r)))) = some env := h
    cases hsk : lib.decodeBase64 skS with
    | none => rw [hsk] at h1; cases h1
    | some skb =>
      rw [hsk] at h1
      have h2 : (match lib.box (lib.decodeUTF8 M) (generateNonce r) pkb skb with
          | none => none
          | some c =>
            some (Envelope.mk (lib.encodeBase64 c)
              (lib.encodeBase64 (generateNonce r)))) = some env := h1
      cases hbox : lib.box (lib.decodeUTF8 M) (generateNonce r) pkb skb with
      | none => rw [hbox] at h2; cases h2
      | some c =>
        rw [hbox] at h2
        exact ⟨pkb, skb, c, rfl, rfl, hbox, (Option.some.inj h2).symm⟩

/-- decrypt returns none when the ciphertext does not decode. -/
lemma decrypt_none_e (lib : NaclLib) (e n p s : String)
    (he : lib.decodeBase64 e = none) : decrypt lib e n p s = none := by
  unfold decrypt
  rw [he]

/-- decrypt returns none when the nonce does not decode. -/
lemma decrypt_none_n (lib : NaclLib) (e n p s : String) (eb : Bytes)
    (he : lib.decodeBase64 e = some eb) (hn : lib.decodeBase64 n = none) :
    decrypt lib e n p s = none := by
  unfold decrypt
  rw [he]
  show (match lib.decodeBase64 n with
      | none => none
      | some nb =>
        match lib.decodeBase64 p with
        | none => none
        | some pb =>
          match lib.decodeBase64 s with
          | none => none
          | some sb =>
            match lib.boxOpen eb nb pb sb with
            | none => none
            | some mb => lib.encodeUTF8 mb) = none
  rw [hn]

/-- decrypt returns none when the sender public key does not decode. -/
lemma decrypt_none_p (lib : NaclLib) (e n p s : String) (eb nb : Bytes)
    (he : lib.decodeBase64 e = some eb) (hn : lib.decodeBase64 n = some nb)
    (hp : lib.decodeBase64 p = none) : decrypt lib e n p s = none := by
  unfold decrypt
  rw [he]
  show (match lib.decodeBase64 n with
      | none => none
      | some nb =>
        match lib.decodeBase64 p with
        | none => none
        | some pb =>
          match lib.decodeBase64 s with
          | none => none
          | some sb =>
            match lib.boxOpen eb nb pb sb with
            | none => none
            | some mb => lib.encodeUTF8 mb) = none
  rw [hn]
  show (match lib.decodeBase64 p with
      | none => none
      | some pb =>
        match lib.decodeBase64 s with
        | none => none
        | some sb =>
          match lib.boxOpen eb nb pb sb with
          | none => none
          | some mb => lib.encodeUTF8 mb) = none
  rw [hp]

/-- decrypt returns none when the recipient secret key does not decode. -/
lemma decrypt_none_s (lib : NaclLib) (e n p s : String) (eb nb pb : Bytes)
    (he : lib.decodeBase64 e = some eb) (hn : lib.decodeBase64 n = some nb)
    (hp : lib.decodeBase64 p = some pb) (hs : lib.decodeBase64 s = none) :
    decrypt lib e n p s = none := by
  unfold decrypt
  rw [he]
  show (match lib.decodeBase64 n with
      | none => none
      | some nb =>
        match lib.decodeBase64 p with
        | none => none
        | some pb =>
          match lib.decodeBase64 s with
          | none => none
          | some sb =>
            match lib.boxOpen eb nb pb sb with
            | none => none
            | some mb => lib.encodeUTF8 mb) = none
  rw [hn]
  show (match lib.decodeBase64 p with
      | none => none
      | some pb =>
        match lib.decodeBase64 s with
        | none => none
        | some sb =>
          match lib.boxOpen eb nb pb sb with
          | none => none
          | some mb => lib.encodeUTF8 mb) = none
  rw [hp]
  show (match lib.decodeBase64 s with
      | none => none
      | some sb =>
        match lib.boxOpen eb nb pb sb with
        | none => none
        | some mb => lib.encodeUTF8 mb) = none
  rw [hs]

/-- Inversion of a successful decrypt. -/
lemma decrypt_inv (lib : NaclLib) (e n p s M : String)
    (h : decrypt lib e n p s = some M) :
    ∃ eb nb pb sb mb, lib.decodeBase64 e = some eb ∧ lib.decodeBase64 n = some nb ∧
      lib.decodeBase64 p = some pb ∧ lib.decodeBase64 s = some sb ∧
      lib.boxOpen eb nb pb sb = some mb ∧ lib.encodeUTF8 mb = some M := by
  cases he : lib.decodeBase64 e with
  | none => rw [decrypt_none_e lib e n p s he] at h; cases h
  | some eb =>
    cases hn : lib.decodeBase64 n with
    | none => rw [decrypt_none_n lib e n p s eb he hn] at h; cases h
    | some nb =>
      cases hp : lib.decodeBase64 p with
      | none => rw [decrypt_none_p lib e n p s eb nb he hn hp] at h; cases h
      | some pb =>
        cases hs : lib.decodeBase64 s with
        | none => rw [decrypt_none_s lib e n p s eb nb pb he hn hp hs] at h; cases h
        | some sb =>
          rw [decrypt_eq lib e n p s eb nb pb sb he hn hp hs] at h
          cases hopen : lib.boxOpen eb nb pb sb with
          | none => rw [hopen] at h; cases h
          | some mb =>
            rw [hopen] at h
            exact ⟨eb, nb, pb, sb, mb, rfl, rfl, rfl, rfl, hopen, h⟩

/-- Core round trip: for any contract-satisfying library, any message,
any entropy for the two key pairs and any nonce draw, encrypt from A to
B succeeds and decrypt by B recovers the message. -/
lemma roundtrip_core (lib : NaclLib) (hc : NaclContract lib) (r : Nat → Nat)
    (M : String) (e1 e2 : Bytes) :
    ∃ env : Envelope,
      encrypt lib r M (generateKeyPair lib e2).publicKey
        (generateKeyPair lib e1).secretKey = some env ∧
      decrypt lib env.encrypted env.nonce (generateKeyPair lib e1).publicKey
        (generateKeyPair lib e2).secretKey = some M := by
  obtain ⟨k, hk⟩ := Option.isSome_iff_exists.mp (hc.before_ok e1 e2)
  obtain ⟨c, hcs⟩ := Option.isSome_iff_exists.mp
    (hc.after_ok (lib.decodeUTF8 M) (generateNonce r) k e1 e2 hk)
  have hbox : lib.box (lib.decodeUTF8 M) (generateNonce r)
      (lib.boxKeyPair e2).1 (lib.boxKeyPair e1).2 = some c := by
    rw [hc.box_def, hk]
    exact hcs
  have henc := encrypt_eq lib r M (generateKeyPair lib e2).publicKey
    (generateKeyPair lib e1).secretKey (lib.boxKeyPair e2).1 (lib.boxKeyPair e1).2 c
    (by rw [generateKeyPair_publicKey]; exact hc.b64_rt _)
    (by rw [generateKeyPair_secretKey]; exact hc.b64_rt _) hbox
  refine ⟨_, henc, ?_⟩
  rw [decrypt_eq lib _ _ _ _ c (generateNonce r)
    (lib.boxKeyPair e1).1 (lib.boxKeyPair e2).2 (hc.b64_rt c) (hc.b64_rt _)
    (by rw [generateKeyPair_publicKey]; exact hc.b64_rt _)
    (by rw [generateKeyPair_secretKey]; exact hc.b64_rt _)]
  have hopen : lib.boxOpen c (generateNonce r)
      (lib.boxKeyPair e1).1 (lib.boxKeyPair e2).2 = some (lib.decodeUTF8 M) := by
    rw [hc.boxOpen_def, ← hc.before_symm e1 e2, hk]
    exact hc.after_open _ _ _ _ hcs
  rw [hopen]
  exact hc.utf8_rt M

/-- C1: for every message M and every two valid key pairs A and B
(generated together by generateKeyPair), encrypt(M, B.publicKey,
A.secretKey) yields a non-null envelope, and decrypt of that envelope
with A.publicKey and B.secretKey returns M. -/
theorem encrypt_decrypt_roundtrip (lib : NaclLib) (hc : NaclContract lib)
    (r : Nat → Nat) (M : String) (e1 e2 : Bytes) :
    ∃ env : Envelope,
      encrypt lib r M (generateKeyPair lib e2).publicKey
        (generateKeyPair lib e1).secretKey = some env ∧
      decrypt lib env.encrypted env.nonce (generateKeyPair lib e1).publicKey
        (generateKeyPair lib e2).secretKey = some M :=
  roundtrip_core lib hc r M e1 e2

/-- Witness for C1 at the toy library, message "hi", entropies [1] and
[2], all-zero nonce draw. -/
theorem encrypt_decrypt_roundtrip_witness :
    ∃ env : Envelope,
      encrypt toyNacl (fun _ => 0) "hi" (generateKeyPair toyNacl [2]).publicKey
        (generateKeyPair toyNacl [1]).secretKey = some env ∧
      decrypt toyNacl env.encrypted env.nonce (generateKeyPair toyNacl [1]).publicKey
        (generateKeyPair toyNacl [2]).secretKey = some "hi" :=
  encrypt_decrypt_roundtrip toyNacl toy_contract (fun _ => 0) "hi" [1] [2]

/-- C10: the empty message is handled like any other message: encrypt of
the empty string returns a non-null envelope and decrypt of it returns
the empty string. -/
theorem encrypt_decrypt_empty_message (lib : NaclLib) (hc : NaclContract lib)
    (r : Nat → Nat) (e1 e2 : Bytes) :
    ∃ env : Envelope,
      encrypt lib r "" (generateKeyPair lib e2).publicKey
        (generateKeyPair lib e1).secretKey = some env ∧
      decrypt lib env.encrypted env.nonce (generateKeyPair lib e1).publicKey
        (generateKeyPair lib e2).secretKey = some "" :=
  roundtrip_core lib hc r "" e1 e2

/-- Witness for C10 at the toy library. -/
theorem encrypt_decrypt_empty_message_witness :
    ∃ env : Envelope,
      encrypt toyNacl (fun _ => 0) "" (generateKeyPair toyNacl [2]).publicKey
        (generateKeyPair toyNacl [1]).secretKey = some env ∧
      decrypt toyNacl env.encrypted env.nonce (generateKeyPair toyNacl [1]).publicKey
        (generateKeyPair toyNacl [2]).secretKey = some "" :=
  encrypt_decrypt_empty_message toyNacl toy_contract (fun _ => 0) [1] [2]

/-- C6: deriveSharedSecret(B.publicKey, A.secretKey) equals
deriveSharedSecret(A.publicKey, B.secretKey) for any two generated key
pairs (Diffie-Hellman symmetry); determinism is immediate because the
embedding of deriveSharedSecret is a pure function of its inputs. -/
theorem deriveSharedSecret_symm (lib : NaclLib) (hc : NaclContract lib)
    (e1 e2 : Bytes) :
    deriveSharedSecret lib (generateKeyPair lib e2).publicKey
        (generateKeyPair lib e1).secretKey
      = deriveSharedSecret lib (generateKeyPair lib e1).publicKey
        (generateKeyPair lib e2).secretKey := by
  obtain ⟨k, hk⟩ := Option.isSome_iff_exists.mp (hc.before_ok e1 e2)
  have hk2 : lib.boxBefore (lib.boxKeyPair e1).1 (lib.boxKeyPair e2).2 = some k := by
    rw [← hc.before_symm e1 e2]
    exact hk
  rw [deriveSharedSecret_eq lib _ _ (lib.boxKeyPair e2).1 (lib.boxKeyPair e1).2 k
    (by rw [generateKeyPair_publicKey]; exact hc.b64_rt _)
    (by rw [generateKeyPair_secretKey]; exact hc.b64_rt _) hk]
  rw [deriveSharedSecret_eq lib _ _ (lib.boxKeyPair e1).1 (lib.boxKeyPair e2).2 k
    (by rw [generateKeyPair_publicKey]; exact hc.b64_rt _)
    (by rw [generateKeyPair_secretKey]; exact hc.b64_rt _) hk2]

/-- Witness for C6 at the toy library, entropies [1] and [2]. -/
theorem deriveSharedSecret_symm_witness :
    deriveSharedSecret toyNacl (generateKeyPair toyNacl [2]).publicKey
        (generateKeyPair toyNacl [1]).secretKey
      = deriveSharedSecret toyNacl (generateKeyPair toyNacl [1]).publicKey
        (generateKeyPair toyNacl [2]).secretKey :=
  deriveSharedSecret_symm toyNacl toy_contract [1] [2]

/-- C5: for every message M and shared secret S obtained from
deriveSharedSecret on a pair of generated key pairs,
encryptWithSharedSecret(M, S) yields a non-null envelope and
decryptWithSharedSecret of it with S returns M. -/
theorem shared_secret_roundtrip (lib : NaclLib) (hc : NaclContract lib)
    (r : Nat → Nat) (M S : String) (e1 e2 : Bytes)
    (hS : deriveSharedSecret lib (generateKeyPair lib e2).publicKey
      (generateKeyPair lib e1).secretKey = Except.ok S) :
    ∃ env : Envelope,
      encryptWithSharedSecret lib r M S = some env ∧
      decryptWithSharedSecret lib env.encrypted env.nonce S = some M := by
  obtain ⟨k, hk⟩ := Option.isSome_iff_exists.mp (hc.before_ok e1 e2)
  rw [deriveSharedSecret_eq lib _ _ (lib.boxKeyPair e2).1 (lib.boxKeyPair e1).2 k
    (by rw [generateKeyPair_publicKey]; exact hc.b64_rt _)
    (by rw [generateKeyPair_secretKey]; exact hc.b64_rt _) hk] at hS
  have hSval : S = lib.encodeBase64 k := (Except.ok.inj hS).symm
  subst hSval
  obtain ⟨c, hcs⟩ := Option.isSome_iff_exists.mp
    (hc.after_ok (lib.decodeUTF8 M) (generateNonce r) k e1 e2 hk)
  have henc := encryptWithSharedSecret_eq lib r M _ k c (hc.b64_rt k) hcs
  refine ⟨_, henc, ?_⟩
  rw [decryptWithSharedSecret_eq lib _ _ _ c (generateNonce r) k
    (hc.b64_rt c) (hc.b64_rt _) (hc.b64_rt k)]
  rw [hc.after_open _ _ _ _ hcs]
  exact hc.utf8_rt M

/-- Witness for C5 at the toy library: the shared secret derived from
the [1] and [2] key pairs is the string AO. -/
theorem shared_secret_roundtrip_witness :
    ∃ env : Envelope,
      encryptWithSharedSecret toyNacl (fun _ => 0) "hi" "AO" = some env ∧
      decryptWithSharedSecret toyNacl env.encrypted env.nonce "AO" = some "hi" :=
  shared_secret_roundtrip toyNacl toy_contract (fun _ => 0) "hi" "AO" [1] [2] rfl

/-- C7: every encrypt call draws a nonce of the fixed 24-byte length;
the nonce field of the envelope is exactly the nonce under which the
ciphertext was produced; and two calls whose random draws differ return
envelopes with different nonce fields. -/
theorem encrypt_nonce_fresh (lib : NaclLib) (hc : NaclContract lib)
    (r1 r2 : Nat → Nat) (M pkS skS : String) (env1 env2 : Envelope)
    (h1 : encrypt lib r1 M pkS skS = some env1)
    (h2 : encrypt lib r2 M pkS skS = some env2)
    (hr : generateNonce r1 ≠ generateNonce r2) :
    (generateNonce r1).length = nonceLength ∧
    (generateNonce r2).length = nonceLength ∧
    env1.nonce = lib.encodeBase64 (generateNonce r1) ∧
    (∃ pkb skb c, lib.decodeBase64 pkS = some pkb ∧ lib.decodeBase64 skS = some skb ∧
      lib.box (lib.decodeUTF8 M) (generateNonce r1) pkb skb = some c ∧
      env1.encrypted = lib.encodeBase64 c) ∧
    env1.nonce ≠ env2.nonce := by
  obtain ⟨pkb, skb, c, hpk, hsk, hbox, henv⟩ := encrypt_inv lib r1 M pkS skS env1 h1
  obtain ⟨pkb2, skb2, c2, hpk2, hsk2, hbox2, henv2⟩ := encrypt_inv lib r2 M pkS skS env2 h2
  refine ⟨?_, ?_, ?_, ⟨pkb, skb, c, hpk, hsk, hbox, ?_⟩, ?_⟩
  · simp [generateNonce, nonceLength]
  · simp [generateNonce, nonceLength]
  · rw [henv]
  · rw [henv]
  · rw [henv, henv2]
    intro heq
    exact hr (encodeBase64_inj lib hc _ _ heq)

/-- C2: a single-bit corruption of the encrypted bytes makes decrypt
return null, and decrypt returns a plaintext only when the underlying
authenticated opening succeeds on a genuinely sealed ciphertext; all
failures are the single sentinel null. -/
theorem decrypt_tamper_reject_and_authenticate (lib : NaclLib) (hc : NaclContract lib)
    (r : Nat → Nat) (M e' n' s : String) (e1 e2 : Bytes) (env : Envelope) (c c' : Bytes)
    (henc : encrypt lib r M (generateKeyPair lib e2).publicKey
      (generateKeyPair lib e1).secretKey = some env)
    (hdc : lib.decodeBase64 env.encrypted = some c)
    (hflip : FlipOneBit c c')
    (hdec : decrypt lib e' n' (generateKeyPair lib e1).publicKey
      (generateKeyPair lib e2).secretKey = some s) :
    decrypt lib (lib.encodeBase64 c') env.nonce (generateKeyPair lib e1).publicKey
      (generateKeyPair lib e2).secretKey = none ∧
    (∃ eb nb pb sb k mb,
      lib.decodeBase64 e' = some eb ∧ lib.decodeBase64 n' = some nb ∧
      lib.decodeBase64 (generateKeyPair lib e1).publicKey = some pb ∧
      lib.decodeBase64 (generateKeyPair lib e2).secretKey = some sb ∧
      lib.boxBefore pb sb = some k ∧ lib.boxOpenAfter eb nb k = some mb ∧
      lib.boxAfter mb nb k = some eb ∧ lib.encodeUTF8 mb = some s) := by
  constructor
  · obtain ⟨pkb, skb, c0, hpk, hsk, hbox, henv⟩ := encrypt_inv lib r M _ _ env henc
    have hpkv : pkb = (lib.boxKeyPair e2).1 := by
      rw [generateKeyPair_publicKey] at hpk
      rw [hc.b64_rt (lib.boxKeyPair e2).1] at hpk
      exact (Option.some.inj hpk).symm
    have hskv : skb = (lib.boxKeyPair e1).2 := by
      rw [generateKeyPair_secretKey] at hsk
      rw [hc.b64_rt (lib.boxKeyPair e1).2] at hsk
      exact (Option.some.inj hsk).symm
    subst hpkv
    subst hskv
    subst henv
    have hceq : c0 = c := Option.some.inj ((hc.b64_rt c0).symm.trans hdc)
    subst hceq
    rw [hc.box_def] at hbox
    obtain ⟨k, hk, hafter⟩ := Option.bind_eq_some.mp hbox
    rw [decrypt_eq lib _ _ _ _ c' (generateNonce r)
      (lib.boxKeyPair e1).1 (lib.boxKeyPair e2).2 (hc.b64_rt c') (hc.b64_rt _)
      (by rw [generateKeyPair_publicKey]; exact hc.b64_rt _)
      (by rw [generateKeyPair_secretKey]; exact hc.b64_rt _)]
    have hopen : lib.boxOpen c' (generateNonce r)
        (lib.boxKeyPair e1).1 (lib.boxKeyPair e2).2 = none := by
      rw [hc.boxOpen_def, ← hc.before_symm e1 e2, hk]
      show lib.boxOpenAfter c' (generateNonce r) k = none
      exact hc.bitflip_reject _ _ _ _ _ hafter hflip
    rw [hopen]
  · obtain ⟨eb, nb, pb, sb, mb, he', hn', hp', hs', hopen', hut⟩ :=
      decrypt_inv lib e' n' _ _ s hdec
    rw [hc.boxOpen_def] at hopen'
    obtain ⟨k2, hk2, hoa⟩ := Option.bind_eq_some.mp hopen'
    exact ⟨eb, nb, pb, sb, k2, mb, he', hn', hp', hs', hk2, hoa,
      hc.open_genuine _ _ _ _ hoa, hut⟩

/-- Sample all-zero random draw. -/
def rZero : Nat → Nat := fun _ => 0

/-- Sample all-one random draw. -/
def rOne : Nat → Nat := fun _ => 1

/-- The toy shared key of the [1] and [2] sample key pairs. -/
def sampleKey : Bytes := natToBytes 14

/-- The toy ciphertext of the message hi under the sample key and the
all-zero nonce. -/
def sampleSeal0 : Bytes := toySeal sampleKey (generateNonce rZero) (decUTF8 "hi")

/-- The toy ciphertext of the message hi under the sample key and the
all-one nonce. -/
def sampleSeal1 : Bytes := toySeal sampleKey (generateNonce rOne) (decUTF8 "hi")

/-- The envelope encrypt returns for the first sample call. -/
def sampleEnv0 : Envelope :=
  Envelope.mk (toyNacl.encodeBase64 sampleSeal0)
    (toyNacl.encodeBase64 (generateNonce rZero))

/-- The envelope encrypt returns for the second sample call. -/
def sampleEnv1 : Envelope :=
  Envelope.mk (toyNacl.encodeBase64 sampleSeal1)
    (toyNacl.encodeBase64 (generateNonce rOne))

set_option maxRecDepth 100000 in
/-- Witness for C7 at the toy library: two encrypt calls with the
all-zero and all-one draws. -/
theorem encrypt_nonce_fresh_witness :
    (generateNonce rZero).length = nonceLength ∧
    (generateNonce rOne).length = nonceLength ∧
    sampleEnv0.nonce = toyNacl.encodeBase64 (generateNonce rZero) ∧
    (∃ pkb skb c,
      toyNacl.decodeBase64 (generateKeyPair toyNacl [2]).publicKey = some pkb ∧
      toyNacl.decodeBase64 (generateKeyPair toyNacl [1]).secretKey = some skb ∧
      toyNacl.box (toyNacl.decodeUTF8 "hi") (generateNonce rZero) pkb skb = some c ∧
      sampleEnv0.encrypted = toyNacl.encodeBase64 c) ∧
    sampleEnv0.nonce ≠ sampleEnv1.nonce :=
  encrypt_nonce_fresh toyNacl toy_contract rZero rOne "hi"
    (generateKeyPair toyNacl [2]).publicKey (generateKeyPair toyNacl [1]).secretKey
    sampleEnv0 sampleEnv1 rfl rfl (by decide)

set_option maxRecDepth 100000 in
/-- Witness for C2 at the toy library: bit 0 of byte 0 of the sample
ciphertext is flipped, and the untampered envelope decrypts. -/
theorem decrypt_tamper_witness :
    decrypt toyNacl (toyNacl.encodeBase64 (flipBit sampleSeal0 0 0)) sampleEnv0.nonce
      (generateKeyPair toyNacl [1]).publicKey
      (generateKeyPair toyNacl [2]).secretKey = none ∧
    (∃ eb nb pb sb k mb,
      toyNacl.decodeBase64 sampleEnv0.encrypted = some eb ∧
      toyNacl.decodeBase64 sampleEnv0.nonce = some nb ∧
      toyNacl.decodeBase64 (generateKeyPair toyNacl [1]).publicKey = some pb ∧
      toyNacl.decodeBase64 (generateKeyPair toyNacl [2]).secretKey = some sb ∧
      toyNacl.boxBefore pb sb = some k ∧ toyNacl.boxOpenAfter eb nb k = some mb ∧
      toyNacl.boxAfter mb nb k = some eb ∧ toyNacl.encodeUTF8 mb = some "hi") :=
  decrypt_tamper_reject_and_authenticate toyNacl toy_contract rZero "hi"
    sampleEnv0.encrypted sampleEnv0.nonce "hi" [1] [2] sampleEnv0 sampleSeal0
    (flipBit sampleSeal0 0 0) rfl rfl ⟨0, 0, by decide, by decide, rfl⟩ rfl

/-- C8: verify returns true exactly when the decoded signature is a
genuine detached signature of exactly this message under exactly this
public key; it returns false, never an escaping exception, when the
signature or the key fails to decode or the primitive throws. -/
theorem verify_iff_genuine (lib : NaclLib) (hc : NaclContract lib) (M sg P : String) :
    (verify lib M sg P = true ↔
      ∃ sgb pb seed skSig,
        lib.decodeBase64 sg = some sgb ∧ lib.decodeBase64 P = some pb ∧
        lib.signKeyPairFromSeed seed = some (pb, skSig) ∧
        lib.signDetached (lib.decodeUTF8 M) skSig = some sgb) ∧
    (lib.decodeBase64 sg = none → verify lib M sg P = false) ∧
    (lib.decodeBase64 P = none → verify lib M sg P = false) ∧
    ((∃ sgb pb, lib.decodeBase64 sg = some sgb ∧ lib.decodeBase64 P = some pb ∧
        lib.signDetachedVerify (lib.decodeUTF8 M) sgb pb = none) →
      verify lib M sg P = false) := by
  refine ⟨⟨?_, ?_⟩, ?_, ?_, ?_⟩
  · intro h
    cases hsg : lib.decodeBase64 sg with
    | none =>
      rw [verify_sig_none lib M sg P hsg] at h
      cases h
    | some sgb =>
      cases hp : lib.decodeBase64 P with
      | none =>
        rw [verify_pk_none lib M sg P sgb hsg hp] at h
        cases h
      | some pb =>
        rw [verify_eq lib M sg P sgb pb hsg hp] at h
        cases hv : lib.signDetachedVerify (lib.decodeUTF8 M) sgb pb with
        | none =>
          rw [hv] at h
          cases h
        | some b =>
          rw [hv] at h
          have hb : b = true := h
          subst hb
          obtain ⟨seed, skSig, hkp, hsd⟩ := hc.verify_genuine _ _ _ hv
          exact ⟨sgb, pb, seed, skSig, rfl, rfl, hkp, hsd⟩
  · rintro ⟨sgb, pb, seed, skSig, hsg, hp, hkp, hsd⟩
    rw [verify_eq lib M sg P sgb pb hsg hp]
    rw [hc.sign_correct seed pb skSig _ _ hkp hsd]
  · intro h
    exact verify_sig_none lib M sg P h
  · intro h
    cases hsg : lib.decodeBase64 sg with
    | none => exact verify_sig_none lib M sg P hsg
    | some sgb => exact verify_pk_none lib M sg P sgb hsg h
  · rintro ⟨sgb, pb, hsg, hp, hv⟩
    rw [verify_eq lib M sg P sgb pb hsg hp, hv]

/-- Witness for C8 at the toy library, on the genuine sample signature
of the message m. -/
theorem verify_iff_genuine_witness :
    (verify toyNacl "m" (toyNacl.encodeBase64 (pairEnc [1] (decUTF8 "m")))
        (toyNacl.encodeBase64 [9, 1]) = true ↔
      ∃ sgb pb seed skSig,
        toyNacl.decodeBase64 (toyNacl.encodeBase64 (pairEnc [1] (decUTF8 "m")))
          = some sgb ∧
        toyNacl.decodeBase64 (toyNacl.encodeBase64 [9, 1]) = some pb ∧
        toyNacl.signKeyPairFromSeed seed = some (pb, skSig) ∧
        toyNacl.signDetached (toyNacl.decodeUTF8 "m") skSig = some sgb) ∧
    (toyNacl.decodeBase64 (toyNacl.encodeBase64 (pairEnc [1] (decUTF8 "m"))) = none →
      verify toyNacl "m" (toyNacl.encodeBase64 (pairEnc [1] (decUTF8 "m")))
        (toyNacl.encodeBase64 [9, 1]) = false) ∧
    (toyNacl.decodeBase64 (toyNacl.encodeBase64 [9, 1]) = none →
      verify toyNacl "m" (toyNacl.encodeBase64 (pairEnc [1] (decUTF8 "m")))
        (toyNacl.encodeBase64 [9, 1]) = false) ∧
    ((∃ sgb pb,
        toyNacl.decodeBase64 (toyNacl.encodeBase64 (pairEnc [1] (decUTF8 "m")))
          = some sgb ∧
        toyNacl.decodeBase64 (toyNacl.encodeBase64 [9, 1]) = some pb ∧
        toyNacl.signDetachedVerify (toyNacl.decodeUTF8 "m") sgb pb = none) →
      verify toyNacl "m" (toyNacl.encodeBase64 (pairEnc [1] (decUTF8 "m")))
        (toyNacl.encodeBase64 [9, 1]) = false) :=
  verify_iff_genuine toyNacl toy_contract "m"
    (toyNacl.encodeBase64 (pairEnc [1] (decUTF8 "m"))) (toyNacl.encodeBase64 [9, 1])

/-- C9: sign uses exactly the first 32 bytes of the decoded secret key
as the signing seed: two secret keys whose decoded bytes agree on the
first 32 bytes sign identically, the derived signing key pair is the
same, and the signature verifies under the derived signing public
key. -/
theorem sign_first_32 (lib : NaclLib) (hc : NaclContract lib) (M sk1 sk2 : String)
    (b1 b2 pk sks sg : Bytes)
    (h1 : lib.decodeBase64 sk1 = some b1) (h2 : lib.decodeBase64 sk2 = some b2)
    (hagree : b1.take 32 = b2.take 32)
    (hkp : lib.signKeyPairFromSeed (b1.take 32) = some (pk, sks))
    (hsg : lib.signDetached (lib.decodeUTF8 M) sks = some sg) :
    sign lib M sk1 = sign lib M sk2 ∧
    lib.signKeyPairFromSeed (b1.take 32) = lib.signKeyPairFromSeed (b2.take 32) ∧
    sign lib M sk1 = Except.ok (lib.encodeBase64 sg) ∧
    verify lib M (lib.encodeBase64 sg) (lib.encodeBase64 pk) = true := by
  refine ⟨?_, ?_, ?_, ?_⟩
  · rw [sign_decoded lib M sk1 b1 h1, sign_decoded lib M sk2 b2 h2, hagree]
  · rw [hagree]
  · exact sign_eq lib M sk1 b1 pk sks sg h1 hkp hsg
  · rw [verify_eq lib M _ _ sg pk (hc.b64_rt sg) (hc.b64_rt pk)]
    rw [hc.sign_correct _ _ _ _ _ hkp hsg]

/-- Witness for C9 at the toy library: two 33-byte secret keys agreeing
on their first 32 bytes. -/
theorem sign_first_32_witness :
    sign toyNacl "m" (toyNacl.encodeBase64 (List.replicate 32 1 ++ [5]))
      = sign toyNacl "m" (toyNacl.encodeBase64 (List.replicate 32 1 ++ [6])) ∧
    toyNacl.signKeyPairFromSeed ((List.replicate 32 (1 : Byte) ++ [5]).take 32)
      = toyNacl.signKeyPairFromSeed ((List.replicate 32 (1 : Byte) ++ [6]).take 32) ∧
    sign toyNacl "m" (toyNacl.encodeBase64 (List.replicate 32 1 ++ [5]))
      = Except.ok (toyNacl.encodeBase64 (pairEnc (List.replicate 32 1) (decUTF8 "m"))) ∧
    verify toyNacl "m"
      (toyNacl.encodeBase64 (pairEnc (List.replicate 32 1) (decUTF8 "m")))
      (toyNacl.encodeBase64 (9 :: List.replicate 32 1)) = true :=
  sign_first_32 toyNacl toy_contract "m"
    (toyNacl.encodeBase64 (List.replicate 32 1 ++ [5]))
    (toyNacl.encodeBase64 (List.replicate 32 1 ++ [6]))
    (List.replicate 32 1 ++ [5]) (List.replicate 32 1 ++ [6])
    (9 :: List.replicate 32 1) (List.replicate 32 1)
    (pairEnc (List.replicate 32 1) (decUTF8 "m"))
    (toy_contract.b64_rt _) (toy_contract.b64_rt _) (by decide) rfl rfl

/-- Counterexample for C3: at a contract-satisfying library, for a key
pair produced by generateKeyPair, verify of sign under K.publicKey is
false, because sign derives an unrelated signing key pair from the seed
while K.publicKey is the encryption public key. -/
theorem verify_sign_box_key_cex :
    NaclContract toyNacl ∧
    sign toyNacl "m" (generateKeyPair toyNacl [1]).secretKey
      = Except.ok "ABAAABAAAAGN" ∧
    verify toyNacl "m" "ABAAABAAAAGN" (generateKeyPair toyNacl [1]).publicKey
      = false :=
  ⟨toy_contract, rfl, rfl⟩

/-- C3 amended: the signature produced by sign(M, K.secretKey) verifies
as true under the signing public key of the key pair derived from the
first 32 bytes of K's decoded secret key -- not under K.publicKey --
and verifies as false under any other public key and for any other
message. -/
theorem sign_verifies_under_derived_signing_key (lib : NaclLib)
    (hc : NaclContract lib) (M M' sk P' : String) (skb pkSig skSig sgb pb' : Bytes)
    (hsk : lib.decodeBase64 sk = some skb)
    (hkp : lib.signKeyPairFromSeed (skb.take 32) = some (pkSig, skSig))
    (hsg : lib.signDetached (lib.decodeUTF8 M) skSig = some sgb)
    (hP' : lib.decodeBase64 P' = some pb')
    (hne : pb' ≠ pkSig) (hM' : M' ≠ M) :
    sign lib M sk = Except.ok (lib.encodeBase64 sgb) ∧
    verify lib M (lib.encodeBase64 sgb) (lib.encodeBase64 pkSig) = true ∧
    verify lib M (lib.encodeBase64 sgb) P' = false ∧
    verify lib M' (lib.encodeBase64 sgb) (lib.encodeBase64 pkSig) = false := by
  refine ⟨sign_eq lib M sk skb pkSig skSig sgb hsk hkp hsg, ?_, ?_, ?_⟩
  · rw [verify_eq lib M _ _ sgb pkSig (hc.b64_rt sgb) (hc.b64_rt pkSig)]
    rw [hc.sign_correct _ _ _ _ _ hkp hsg]
  · rw [verify_eq lib M _ _ sgb pb' (hc.b64_rt sgb) hP']
    rw [hc.sign_wrong_key _ _ _ _ _ _ hkp hsg hne]
  · rw [verify_eq lib M' _ _ sgb pkSig (hc.b64_rt sgb) (hc.b64_rt pkSig)]
    rw [hc.sign_wrong_msg _ _ _ _ _ _ hkp hsg
      fun heq => hM' (decodeUTF8_inj lib hc M' M heq)]

/-- Witness for the amended C3 at the toy library: secret key AB (bytes
[1]), derived signing key pair ([9, 1], [1]), wrong key AH, wrong
message x. -/
theorem sign_verifies_under_derived_signing_key_witness :
    sign toyNacl "m" "AB"
      = Except.ok (toyNacl.encodeBase64 (pairEnc [1] (decUTF8 "m"))) ∧
    verify toyNacl "m" (toyNacl.encodeBase64 (pairEnc [1] (decUTF8 "m")))
      (toyNacl.encodeBase64 [9, 1]) = true ∧
    verify toyNacl "m" (toyNacl.encodeBase64 (pairEnc [1] (decUTF8 "m"))) "AH" = false ∧
    verify toyNacl "x" (toyNacl.encodeBase64 (pairEnc [1] (decUTF8 "m")))
      (toyNacl.encodeBase64 [9, 1]) = false :=
  sign_verifies_under_derived_signing_key toyNacl toy_contract "m" "x" "AB" "AH"
    [1] [9, 1] [1] (pairEnc [1] (decUTF8 "m")) [7]
    rfl rfl rfl rfl (by decide) (by decide)

/-- Counterexample for C4: at a contract-satisfying library, a decode
error inside deriveSharedSecret or sign is not converted to the failure
sentinel -- it escapes the call as an uncaught exception, because those
two functions have no try/catch in the source. -/
theorem uncaught_throw_cex :
    NaclContract toyNacl ∧
    deriveSharedSecret toyNacl "!" "AA" = Except.error () ∧
    sign toyNacl "m" "!" = Except.error () :=
  ⟨toy_contract, rfl, rfl⟩

/-- C4 amended: encrypt, decrypt, encryptWithSharedSecret,
decryptWithSharedSecret and verify catch every internal failure and
return the uniform sentinel (null or false), but deriveSharedSecret and
sign have no try/catch and let a decode error escape to the caller as
an exception. -/
theorem error_propagation_amended (lib : NaclLib) (r : Nat → Nat)
    (t m sk e n p s M S P : String)
    (ht : lib.decodeBase64 t = none) (hsk : lib.decodeBase64 sk = none)
    (he : lib.decodeBase64 e = none) :
    deriveSharedSecret lib t m = Except.error () ∧
    sign lib M sk = Except.error () ∧
    encrypt lib r M t s = none ∧
    decrypt lib e n p s = none ∧
    encryptWithSharedSecret lib r M t = none ∧
    decryptWithSharedSecret lib e n S = none ∧
    verify lib M t P = false := by
  refine ⟨?_, ?_, ?_, decrypt_none_e lib e n p s he, ?_, ?_, verify_sig_none lib M t P ht⟩
  · unfold deriveSharedSecret
    rw [ht]
  · unfold sign
    rw [hsk]
  · unfold encrypt
    rw [ht]
  · unfold encryptWithSharedSecret
    rw [ht]
  · unfold decryptWithSharedSecret
    rw [he]

/-- Witness for the amended C4 at the toy library on the undecodable
input string consisting of one exclamation mark. -/
theorem error_propagation_amended_witness :
    deriveSharedSecret toyNacl "!" "AA" = Except.error () ∧
    sign toyNacl "m" "!" = Except.error () ∧
    encrypt toyNacl rZero "m" "!" "AB" = none ∧
    decrypt toyNacl "!" "AA" "AH" "AC" = none ∧
    encryptWithSharedSecret toyNacl rZero "m" "!" = none ∧
    decryptWithSharedSecret toyNacl "!" "AA" "AO" = none ∧
    verify toyNacl "m" "!" "AH" = false :=
  error_propagation_amended toyNacl rZero "!" "AA" "!" "!" "AA" "AH" "AC" "m" "AO" "AH"
    rfl rfl rfl

end QLink
